import Mathlib

/-!
Verification development for the nutrient extraction and aggregation
pipeline of the fridge-fusion repository (the `fetchNutrientData` function
of the micronutrient-tracking page).

The embedding is shallow and executable:

* JavaScript strings are Lean `String`s (scanned as `List Char`);
* the ten case-insensitive regexes of the shape
  `/<Label>: (\d+)<unit> \((\d+)%\)/i` are embedded by `findMatch`, which
  scans every start position left to right (leftmost match, exactly as the
  non-global `String.prototype.match`) and at each position strips the
  label case-insensitively, reads a maximal nonempty digit run, the unit
  text, a literal " (", a second digit run and a literal "%)".  Greedy
  `(\d+)` followed by a non-digit literal never needs backtracking, so the
  maximal-run reading is exactly the regex semantics;
* `parseInt` of a captured digit string is `digitsVal`, a nonnegative
  integer (JavaScript numbers are modelled as integers, exact for the
  digit strings the regex captures);
* the insertion-ordered JavaScript `Map` is an association list whose new
  keys are appended at the end, mirroring `Map.set` and iteration order;
* the React state updates of the surrounding component are explicit state
  passing (`runFetchNutrientData`).
-/

namespace Pipeline

/-- ASCII case folding: the `i` flag of the source regexes canonicalises
letters; for the ASCII-only pattern texts this is exactly ASCII folding. -/
def lowerN (n : Nat) : Nat := if 65 ≤ n ∧ n ≤ 90 then n + 32 else n

/-- Case-insensitive character comparison used by the pattern scan. -/
def ciEq (a b : Char) : Bool := lowerN a.toNat == lowerN b.toNat

/-- Strip `pat` (case-insensitively) from the front of `cs`; `none` when
`cs` does not start with `pat`. -/
def stripCi : List Char → List Char → Option (List Char)
  | [], cs => some cs
  | _ :: _, [] => none
  | p :: ps, c :: cs => if ciEq p c then stripCi ps cs else none

/-- Value of a digit string, as `parseInt` computes it on `(\d+)`. -/
def digitsVal (ds : List Char) : Nat :=
  ds.foldl (fun n c => n * 10 + (c.toNat - 48)) 0

/-- Match `<label><digits><unitText> (<digits>%)` at the start of `cs`,
returning the two captured numbers. -/
def matchAt (label unitText : List Char) (cs : List Char) : Option (Nat × Nat) :=
  match stripCi label cs with
  | none => none
  | some r1 =>
    let ds := r1.takeWhile Char.isDigit
    if ds.isEmpty then none
    else
      match stripCi unitText (r1.dropWhile Char.isDigit) with
      | none => none
      | some r2 =>
        match stripCi [' ', '('] r2 with
        | none => none
        | some r3 =>
          let ps := r3.takeWhile Char.isDigit
          if ps.isEmpty then none
          else
            match stripCi ['%', ')'] (r3.dropWhile Char.isDigit) with
            | none => none
            | some _ => some (digitsVal ds, digitsVal ps)

/-- Leftmost match of the nutrient pattern in `cs`, as the non-global
`step.match(regex)` returns it. -/
def findMatch (label unitText : List Char) : List Char → Option (Nat × Nat)
  | [] => none
  | c :: cs =>
    match matchAt label unitText (c :: cs) with
    | some r => some r
    | none => findMatch label unitText cs

/-- One extracted nutrient: `{ value, unit, percentage }` of the source. -/
structure NutrientField where
  value : Int
  unit : String
  percentage : Int
deriving DecidableEq, Repr

/-- The `micronutrients` object of the source. -/
structure Micronutrients where
  vitamin_a : NutrientField
  vitamin_c : NutrientField
  calcium : NutrientField
  iron : NutrientField
  potassium : NutrientField
  sodium : NutrientField
deriving DecidableEq, Repr

/-- The `macronutrients` object of the source. -/
structure Macronutrients where
  protein : NutrientField
  carbs : NutrientField
  fat : NutrientField
  fiber : NutrientField
deriving DecidableEq, Repr

/-- The zero-valued micronutrient defaults the source initialises. -/
def zeroMicros : Micronutrients :=
  { vitamin_a := ⟨0, "mcg", 0⟩
    vitamin_c := ⟨0, "mg", 0⟩
    calcium := ⟨0, "mg", 0⟩
    iron := ⟨0, "mg", 0⟩
    potassium := ⟨0, "mg", 0⟩
    sodium := ⟨0, "mg", 0⟩ }

/-- The zero-valued macronutrient defaults the source initialises. -/
def zeroMacros : Macronutrients :=
  { protein := ⟨0, "g", 0⟩
    carbs := ⟨0, "g", 0⟩
    fat := ⟨0, "g", 0⟩
    fiber := ⟨0, "g", 0⟩ }

/-- One regex check of the source: on a successful match the field is
replaced by the captured value and percentage with the literal unit text
(the literal written by the source equals the unit text of its regex in
all ten cases); otherwise the field is left unchanged. -/
def setMatch (label unitText : String) (old : NutrientField) (cs : List Char) : NutrientField :=
  match findMatch label.toList unitText.toList cs with
  | some (v, p) => { value := (v : Int), unit := unitText, percentage := (p : Int) }
  | none => old

/-- Processing of one step string.  The source runs ten sequential `if`
statements over the same immutable `step`, each overwriting one distinct
field of the two objects; the sequential updates are embedded as one
simultaneous record update, which is equal because the ten checks read
only `step` and write pairwise distinct fields. -/
def applyStep (mm : Micronutrients × Macronutrients) (step : String) :
    Micronutrients × Macronutrients :=
  let cs := step.toList
  ({ vitamin_a := setMatch ("Vitamin A: ") ("mcg") mm.1.vitamin_a cs
     vitamin_c := setMatch ("Vitamin C: ") ("mg") mm.1.vitamin_c cs
     calcium := setMatch ("Calcium: ") ("mg") mm.1.calcium cs
     iron := setMatch ("Iron: ") ("mg") mm.1.iron cs
     potassium := setMatch ("Potassium: ") ("mg") mm.1.potassium cs
     sodium := setMatch ("Sodium: ") ("mg") mm.1.sodium cs },
   { protein := setMatch ("Protein: ") ("g") mm.2.protein cs
     carbs := setMatch ("Carbs: ") ("g") mm.2.carbs cs
     fat := setMatch ("Fat: ") ("g") mm.2.fat cs
     fiber := setMatch ("Fiber: ") ("g") mm.2.fiber cs })

/-- Extraction of the nutrient data of a recipe from its steps
(`recipe.steps.forEach(step => ...)` over the zeroed defaults). -/
def extractNutrients (steps : List String) : Micronutrients × Macronutrients :=
  steps.foldl applyStep (zeroMicros, zeroMacros)

/-- The `hasNutrientData` check of the source: some extracted value is
strictly positive. -/
def hasNutrientData (mm : Micronutrients × Macronutrients) : Bool :=
  decide (0 < mm.1.vitamin_a.value) ||
  decide (0 < mm.1.vitamin_c.value) ||
  decide (0 < mm.1.calcium.value) ||
  decide (0 < mm.1.iron.value) ||
  decide (0 < mm.1.potassium.value) ||
  decide (0 < mm.1.sodium.value) ||
  decide (0 < mm.2.protein.value) ||
  decide (0 < mm.2.carbs.value) ||
  decide (0 < mm.2.fat.value) ||
  decide (0 < mm.2.fiber.value)

/-- Names for the ten nutrient fields, used to state per-field facts. -/
inductive NutrientKey where
  | vitamin_a | vitamin_c | calcium | iron | potassium | sodium
  | protein | carbs | fat | fiber
deriving DecidableEq, Repr

/-- Label text of the regex of each nutrient. -/
def labelOf : NutrientKey → String
  | .vitamin_a => "Vitamin A: "
  | .vitamin_c => "Vitamin C: "
  | .calcium => "Calcium: "
  | .iron => "Iron: "
  | .potassium => "Potassium: "
  | .sodium => "Sodium: "
  | .protein => "Protein: "
  | .carbs => "Carbs: "
  | .fat => "Fat: "
  | .fiber => "Fiber: "

/-- Unit text of the regex of each nutrient, which is also the literal
unit string the source writes into the field. -/
def unitTextOf : NutrientKey → String
  | .vitamin_a => "mcg"
  | .vitamin_c => "mg"
  | .calcium => "mg"
  | .iron => "mg"
  | .potassium => "mg"
  | .sodium => "mg"
  | .protein => "g"
  | .carbs => "g"
  | .fat => "g"
  | .fiber => "g"

/-- Projection of the field of one nutrient out of the two objects. -/
def getField : NutrientKey → Micronutrients × Macronutrients → NutrientField
  | .vitamin_a, mm => mm.1.vitamin_a
  | .vitamin_c, mm => mm.1.vitamin_c
  | .calcium, mm => mm.1.calcium
  | .iron, mm => mm.1.iron
  | .potassium, mm => mm.1.potassium
  | .sodium, mm => mm.1.sodium
  | .protein, mm => mm.2.protein
  | .carbs, mm => mm.2.carbs
  | .fat, mm => mm.2.fat
  | .fiber, mm => mm.2.fiber

/-- A creation timestamp, already in the local time zone the source
formats with (the `new Date(recipe.created_at)` value). -/
structure Timestamp where
  year : Nat
  month : Nat
  day : Nat
  hour : Nat
  minute : Nat
deriving DecidableEq, Repr

/-- A raw recipe row of the store query: `id`, `created_at`, `steps`
(an absent `steps` column is the empty list). -/
structure Recipe where
  id : String
  created_at : Timestamp
  steps : List String
deriving DecidableEq, Repr

/-- Two-digit zero padding used by the `MM`, `dd` and `mm` format parts. -/
def pad2 (n : Nat) : String := if n < 10 then "0" ++ toString n else toString n

/-- Four-digit zero padding used by the `yyyy` format part. -/
def pad4 (n : Nat) : String :=
  if n < 10 then "000" ++ toString n
  else if n < 100 then "00" ++ toString n
  else if n < 1000 then "0" ++ toString n
  else toString n

/-- The grouping key `format(date, "yyyy-MM-dd")`. -/
def dayKeyOf (t : Timestamp) : String :=
  pad4 t.year ++ "-" ++ pad2 t.month ++ "-" ++ pad2 t.day

/-- English short month names of the `MMM` format part. -/
def monthShort : Nat → String
  | 1 => "Jan" | 2 => "Feb" | 3 => "Mar" | 4 => "Apr" | 5 => "May" | 6 => "Jun"
  | 7 => "Jul" | 8 => "Aug" | 9 => "Sep" | 10 => "Oct" | 11 => "Nov" | 12 => "Dec"
  | _ => ""

/-- The display label `format(date, "MMM d")`. -/
def dayLabelOf (t : Timestamp) : String :=
  monthShort t.month ++ " " ++ toString t.day

/-- Twelve-hour clock value of the `h` format part. -/
def hour12 (h : Nat) : Nat := if h % 12 == 0 then 12 else h % 12

/-- The `a` format part. -/
def meridiem (h : Nat) : String := if h < 12 then "AM" else "PM"

/-- The meal timestamp `format(date, "h:mm a")`. -/
def timeLabelOf (t : Timestamp) : String :=
  toString (hour12 t.hour) ++ ":" ++ pad2 t.minute ++ " " ++ meridiem t.hour

/-- One element of a day's `meals` array. -/
structure MealRecord where
  id : String
  timestamp : String
  micronutrients : Micronutrients
  macronutrients : Macronutrients
deriving DecidableEq, Repr

/-- The `averageData` object of a day. -/
structure AverageData where
  micronutrients : Micronutrients
  macronutrients : Macronutrients
deriving DecidableEq, Repr

/-- One `NutrientData` entry of the output (a day aggregate). -/
structure NutrientData where
  day : String
  averageData : AverageData
  meals : List MealRecord
deriving DecidableEq, Repr

/-- The meal object the source pushes onto a day's `meals`. -/
def mkMeal (r : Recipe) : MealRecord :=
  { id := r.id
    timestamp := timeLabelOf r.created_at
    micronutrients := (extractNutrients r.steps).1
    macronutrients := (extractNutrients r.steps).2 }

/-- A recipe passes both early returns of the source loop: it has at
least one step and its extraction has some strictly positive value. -/
def qualifies (r : Recipe) : Bool :=
  (!r.steps.isEmpty) && hasNutrientData (extractNutrients r.steps)

/-- Lookup in the insertion-ordered map (`dailyData.get(key)`). -/
def lookupEntry (k : String) : List (String × NutrientData) → Option NutrientData
  | [] => none
  | (k', e) :: rest => if k' = k then some e else lookupEntry k rest

/-- The `dailyData.get(dayKey)?.meals.push(meal)` update: the entry of
`k`, when present, gets `m` appended to its meals. -/
def pushMeal (k : String) (m : MealRecord) :
    List (String × NutrientData) → List (String × NutrientData)
  | [] => []
  | (k', e) :: rest =>
    if k' = k then (k', { e with meals := e.meals ++ [m] }) :: rest
    else (k', e) :: pushMeal k m rest

/-- The body of `recipesData.forEach(recipe => ...)`: skip the recipe
unless it qualifies; otherwise create the day entry when absent (with the
recipe's own extraction as the initial `averageData` and an empty meals
array, appended at the end as `Map.set` does) and push the meal. -/
def processRecipe (acc : List (String × NutrientData)) (r : Recipe) :
    List (String × NutrientData) :=
  if qualifies r then
    let mm := extractNutrients r.steps
    let k := dayKeyOf r.created_at
    let acc1 :=
      if (lookupEntry k acc).isSome then acc
      else acc ++ [(k, { day := dayLabelOf r.created_at
                         averageData := { micronutrients := mm.1, macronutrients := mm.2 }
                         meals := [] })]
    pushMeal k (mkMeal r) acc1
  else acc

/-- The whole grouping loop over the fetched recipes, in input order. -/
def dailyData (rs : List Recipe) : List (String × NutrientData) :=
  rs.foldl processRecipe []

/-- The body of `dailyData.forEach(dayData => ...)`: a day with a
nonempty meals array is emitted with `averageData` rebuilt from its first
meal. -/
def finalizeEntry (p : String × NutrientData) : Option NutrientData :=
  match p.2.meals with
  | [] => none
  | m :: _ =>
    some { day := p.2.day
           averageData := { micronutrients := m.micronutrients
                            macronutrients := m.macronutrients }
           meals := p.2.meals }

/-- The `nutrientHistoryData` array before sorting, in map iteration
(= insertion) order. -/
def buildHistory (l : List (String × NutrientData)) : List NutrientData :=
  l.filterMap finalizeEntry

/-- Inverse of `monthShort`, used to model `new Date("MMM d 2025")`. -/
def monthNum : String → Nat
  | "Jan" => 1 | "Feb" => 2 | "Mar" => 3 | "Apr" => 4 | "May" => 5 | "Jun" => 6
  | "Jul" => 7 | "Aug" => 8 | "Sep" => 9 | "Oct" => 10 | "Nov" => 11 | "Dec" => 12
  | _ => 0

/-- Sort key of the comparator `new Date(a.day + " 2025")`: the year is
hard-coded, so only month and day of the label matter; for the labels
`dayLabelOf` produces from valid dates, the millisecond times of the
resulting year-2025 dates are ordered exactly as `100 * month + day`. -/
def labelKey (s : String) : Nat :=
  let cs := s.toList
  let name := cs.takeWhile (fun c => !(c == ' '))
  let rest := (cs.dropWhile (fun c => !(c == ' '))).drop 1
  100 * monthNum (String.mk name) + digitsVal (rest.takeWhile Char.isDigit)

/-- Stable descending insertion by `labelKey`: a new element goes after
every element with a key not smaller, which is the unique result of the
stable `Array.prototype.sort` under the comparator `dateB - dateA`. -/
def insertDesc (x : NutrientData) : List NutrientData → List NutrientData
  | [] => [x]
  | y :: ys => if labelKey y.day < labelKey x.day then x :: y :: ys else y :: insertDesc x ys

/-- The `nutrientHistoryData.sort(...)` call. -/
def sortHistory (l : List NutrientData) : List NutrientData :=
  l.foldl (fun acc x => insertDesc x acc) []

/-- The full pure core of `fetchNutrientData`: recipes in, sorted day
aggregates out. -/
def nutrientHistoryData (rs : List Recipe) : List NutrientData :=
  sortHistory (buildHistory (dailyData rs))

/-- The component state touched by one run: the loading flag and the
in-memory `nutrientHistory`. -/
structure ViewState where
  loading : Bool
  nutrientHistory : List NutrientData
deriving DecidableEq, Repr

/-- Outcome of the store query: an error, or the recipe rows. -/
inductive FetchResult where
  | failure (msg : String)
  | success (rs : List Recipe)
deriving DecidableEq, Repr

/-- One run of `fetchNutrientData` with the user signed in, as a function
of the prior state and the fetch outcome.  The `try` block sets
`loading := true`, a fetch error throws into the `catch` (which only
logs, leaving `nutrientHistory` untouched), the `finally` clears
`loading`; an empty row set stores `[]`, otherwise the pipeline result is
stored.  The returned flag records whether the error path logged. -/
def runFetchNutrientData (st : ViewState) (res : FetchResult) : ViewState × Bool :=
  match res with
  | .failure _ => ({ loading := false, nutrientHistory := st.nutrientHistory }, true)
  | .success rs =>
    if rs.isEmpty then ({ loading := false, nutrientHistory := [] }, false)
    else ({ loading := false, nutrientHistory := nutrientHistoryData rs }, false)

/-- Spec-side description: the qualifying recipes of day `k`, in input
order, as meal records. -/
def dayPred (k : String) (r : Recipe) : Bool :=
  qualifies r && (dayKeyOf r.created_at == k)

/-- Meals that day `k` receives, in processing order. -/
def mealsOf (k : String) (rs : List Recipe) : List MealRecord :=
  (rs.filter (dayPred k)).map mkMeal

/-- The first-processed qualifying recipe of day `k`. -/
def firstQualifying (k : String) (rs : List Recipe) : Option Recipe :=
  rs.find? (dayPred k)

/-- The ten nutrient keys in source order. -/
def allKeys : List NutrientKey :=
  [.vitamin_a, .vitamin_c, .calcium, .iron, .potassium, .sodium,
   .protein, .carbs, .fat, .fiber]

/-- All ten fields of an extraction pair. -/
def fieldsOfSets (mm : Micronutrients × Macronutrients) : List NutrientField :=
  allKeys.map (fun k => getField k mm)

/-- All ten fields of a meal record. -/
def fieldsOfMeal (m : MealRecord) : List NutrientField :=
  fieldsOfSets (m.micronutrients, m.macronutrients)

/-- Concatenation of the images of `f`, in order. -/
def concatMap (f : α → List β) : List α → List β
  | [] => []
  | a :: l => f a ++ concatMap f l

/-- Every nutrient field occurring in a day aggregate: the ten
`averageData` fields and the ten fields of every meal. -/
def allFieldsOf (nd : NutrientData) : List NutrientField :=
  fieldsOfSets (nd.averageData.micronutrients, nd.averageData.macronutrients) ++
    concatMap fieldsOfMeal nd.meals

/-- Every nutrient field occurring anywhere in an output history. -/
def allFieldsHistory (l : List NutrientData) : List NutrientField :=
  concatMap allFieldsOf l

/-! ### Extraction lemmas -/

/-- Projecting one nutrient out of one step's processing is one
`setMatch` with that nutrient's label and unit. -/
theorem getField_applyStep (k : NutrientKey) (mm : Micronutrients × Macronutrients)
    (s : String) :
    getField k (applyStep mm s) = setMatch (labelOf k) (unitTextOf k) (getField k mm) s.toList := by
  cases k <;> rfl

/-- Projecting one nutrient out of the whole extraction fold is a fold of
`setMatch` over the steps. -/
theorem getField_foldl (k : NutrientKey) (steps : List String)
    (mm : Micronutrients × Macronutrients) :
    getField k (steps.foldl applyStep mm) =
      steps.foldl (fun f s => setMatch (labelOf k) (unitTextOf k) f s.toList) (getField k mm) := by
  induction steps generalizing mm with
  | nil => rfl
  | cons s rest ih =>
    simp only [List.foldl_cons]
    rw [ih, getField_applyStep]

/-- A fold of `setMatch` is decided by the last step whose text matches
the pattern (its leftmost match); with no matching step the initial field
survives. -/
theorem foldl_setMatch_eq (lab u : String) (steps : List String) (f0 : NutrientField) :
    steps.foldl (fun f s => setMatch lab u f s.toList) f0 =
      match steps.reverse.findSome? (fun s => findMatch lab.toList u.toList s.toList) with
      | some (v, p) => { value := (v : Int), unit := u, percentage := (p : Int) }
      | none => f0 := by
  induction steps generalizing f0 with
  | nil => rfl
  | cons s rest ih =>
    simp only [List.foldl_cons, List.reverse_cons, List.findSome?_append]
    rw [ih]
    cases hrf : rest.reverse.findSome? (fun s => findMatch lab.toList u.toList s.toList) with
    | some vp => rw [Option.or_some]
    | none =>
      rw [Option.none_or]
      show setMatch lab u f0 s.toList = _
      unfold setMatch
      cases hs : findMatch lab.toList u.toList s.toList with
      | some vp =>
        rw [List.findSome?_cons_of_isSome _ (by rw [hs]; rfl), hs]
      | none =>
        rw [List.findSome?_cons_of_isNone _ (by rw [hs]; rfl)]
        rfl

/-- Any property preserved by `setMatch` (holding for every freshly
written field with the given unit) propagates through the fold. -/
theorem foldl_setMatch_pres (P : NutrientField → Prop) (lab u : String)
    (hsome : ∀ v p : Nat, P { value := (v : Int), unit := u, percentage := (p : Int) })
    (steps : List String) (f0 : NutrientField) (h0 : P f0) :
    P (steps.foldl (fun f s => setMatch lab u f s.toList) f0) := by
  induction steps generalizing f0 with
  | nil => exact h0
  | cons s rest ih =>
    simp only [List.foldl_cons]
    refine ih _ ?_
    unfold setMatch
    cases hs : findMatch lab.toList u.toList s.toList with
    | none => exact h0
    | some vp => exact hsome vp.1 vp.2

/-- The zero defaults carry the canonical unit of each nutrient. -/
theorem getField_zero (k : NutrientKey) :
    getField k (zeroMicros, zeroMacros) =
      { value := 0, unit := unitTextOf k, percentage := 0 } := by
  cases k <;> rfl

/-- Every extracted field carries the canonical unit of its nutrient. -/
theorem unit_getField_extract (k : NutrientKey) (steps : List String) :
    (getField k (extractNutrients steps)).unit = unitTextOf k := by
  unfold extractNutrients
  rw [getField_foldl]
  refine foldl_setMatch_pres (fun f => f.unit = unitTextOf k) _ _ (fun v p => rfl) _ _ ?_
  rw [getField_zero]

/-- Every extracted field has a nonnegative value and percentage. -/
theorem nonneg_getField_extract (k : NutrientKey) (steps : List String) :
    0 ≤ (getField k (extractNutrients steps)).value ∧
      0 ≤ (getField k (extractNutrients steps)).percentage := by
  unfold extractNutrients
  rw [getField_foldl]
  refine foldl_setMatch_pres (fun f => 0 ≤ f.value ∧ 0 ≤ f.percentage) _ _
    (fun v p => ⟨Int.natCast_nonneg v, Int.natCast_nonneg p⟩) _ _ ?_
  rw [getField_zero]
  exact ⟨le_refl 0, le_refl 0⟩

/-- A step on which the whole pattern of nutrient `k` fails to match
leaves that nutrient's field of the extraction unchanged. -/
theorem extract_append_no_match (k : NutrientKey) (steps : List String) (s : String)
    (h : findMatch (labelOf k).toList (unitTextOf k).toList s.toList = none) :
    getField k (extractNutrients (steps ++ [s])) = getField k (extractNutrients steps) := by
  unfold extractNutrients
  rw [getField_foldl, getField_foldl, List.foldl_append]
  simp only [List.foldl_cons, List.foldl_nil]
  unfold setMatch
  rw [h]

/-! ### Grouping lemmas -/

/-- Lookup after a `pushMeal`: the pushed key's entry gains the meal,
every other lookup is unchanged. -/
theorem lookupEntry_pushMeal (k kp : String) (m : MealRecord)
    (l : List (String × NutrientData)) :
    lookupEntry k (pushMeal kp m l) =
      if kp = k then (lookupEntry k l).map (fun e => { e with meals := e.meals ++ [m] })
      else lookupEntry k l := by
  induction l with
  | nil =>
    by_cases h : kp = k <;> simp [pushMeal, lookupEntry, h]
  | cons p rest ih =>
    obtain ⟨k0, e0⟩ := p
    by_cases h1 : k0 = kp
    · subst h1
      by_cases h2 : k0 = k
      · subst h2
        simp [pushMeal, lookupEntry]
      · simp [pushMeal, lookupEntry, h2]
    · by_cases h2 : k0 = k
      · subst h2
        have h1' : ¬ kp = k0 := fun hc => h1 hc.symm
        simp [pushMeal, lookupEntry, h1, h1']
      · simp [pushMeal, lookupEntry, h1, h2, ih]

/-- Lookup after appending a fresh entry at the end of the list. -/
theorem lookupEntry_append_single (k kp : String) (e : NutrientData)
    (l : List (String × NutrientData)) :
    lookupEntry k (l ++ [(kp, e)]) =
      match lookupEntry k l with
      | some x => some x
      | none => if kp = k then some e else none := by
  induction l with
  | nil => simp [lookupEntry]
  | cons p rest ih =>
    obtain ⟨k0, e0⟩ := p
    by_cases h : k0 = k
    · simp [lookupEntry, h]
    · simp only [List.cons_append, lookupEntry, if_neg h]
      exact ih

/-- Characterisation of one loop iteration: for the day of a qualifying
recipe the entry is created or extended, everything else is untouched. -/
theorem lookupEntry_processRecipe (acc : List (String × NutrientData)) (r : Recipe)
    (k : String) :
    lookupEntry k (processRecipe acc r) =
      if dayPred k r then
        match lookupEntry k acc with
        | some e => some { e with meals := e.meals ++ [mkMeal r] }
        | none =>
          some { day := dayLabelOf r.created_at
                 averageData := { micronutrients := (extractNutrients r.steps).1
                                  macronutrients := (extractNutrients r.steps).2 }
                 meals := [mkMeal r] }
      else lookupEntry k acc := by
  by_cases hq : qualifies r = true
  · have hpr : processRecipe acc r =
        pushMeal (dayKeyOf r.created_at) (mkMeal r)
          (if (lookupEntry (dayKeyOf r.created_at) acc).isSome then acc
           else acc ++ [(dayKeyOf r.created_at,
                         { day := dayLabelOf r.created_at
                           averageData := { micronutrients := (extractNutrients r.steps).1
                                            macronutrients := (extractNutrients r.steps).2 }
                           meals := [] })]) := by
      simp only [processRecipe, if_pos hq]
    by_cases hk : dayKeyOf r.created_at = k
    · have hd : dayPred k r = true := by
        simp [dayPred, hq, hk]
      subst hk
      rw [if_pos hd, hpr]
      cases hacc : lookupEntry (dayKeyOf r.created_at) acc with
      | some e =>
        simp only [Option.isSome_some, if_true]
        rw [lookupEntry_pushMeal, if_pos rfl, hacc]
        rfl
      | none =>
        simp only [Option.isSome_none, Bool.false_eq_true, if_false]
        rw [lookupEntry_pushMeal, if_pos rfl, lookupEntry_append_single, hacc, if_pos rfl]
        rfl
    · have hd : ¬ dayPred k r = true := by
        simp [dayPred, hk]
      rw [if_neg hd, hpr, lookupEntry_pushMeal, if_neg hk]
      by_cases hs : (lookupEntry (dayKeyOf r.created_at) acc).isSome = true
      · rw [if_pos hs]
      · rw [if_neg hs, lookupEntry_append_single]
        cases hacc : lookupEntry k acc with
        | some x => rfl
        | none => rw [if_neg hk]
  · have hd : ¬ dayPred k r = true := by
      simp [dayPred, hq]
    rw [if_neg hd]
    simp only [processRecipe, if_neg hq]

/-- Characterisation of the whole grouping fold relative to an arbitrary
accumulator: an entry already present collects the meals of its day, a
day first seen inside `rs` is created by its first qualifying recipe. -/
theorem lookupEntry_foldl (k : String) (rs : List Recipe)
    (acc : List (String × NutrientData)) :
    lookupEntry k (rs.foldl processRecipe acc) =
      match lookupEntry k acc with
      | some e => some { e with meals := e.meals ++ mealsOf k rs }
      | none =>
        match firstQualifying k rs with
        | none => none
        | some r0 =>
          some { day := dayLabelOf r0.created_at
                 averageData := { micronutrients := (extractNutrients r0.steps).1
                                  macronutrients := (extractNutrients r0.steps).2 }
                 meals := mealsOf k rs } := by
  induction rs generalizing acc with
  | nil =>
    cases hacc : lookupEntry k acc with
    | some e => simp [mealsOf, hacc]
    | none => simp [firstQualifying, hacc]
  | cons r rest ih =>
    rw [List.foldl_cons, ih, lookupEntry_processRecipe]
    by_cases hd : dayPred k r = true
    · rw [if_pos hd]
      have hm : mealsOf k (r :: rest) = mkMeal r :: mealsOf k rest := by
        simp [mealsOf, List.filter_cons, hd]
      have hf : firstQualifying k (r :: rest) = some r := by
        simp [firstQualifying, List.find?_cons_of_pos _ hd]
      rw [hm, hf]
      cases hacc : lookupEntry k acc with
      | some e => simp
      | none => simp
    · rw [if_neg hd]
      have hm : mealsOf k (r :: rest) = mealsOf k rest := by
        simp [mealsOf, List.filter_cons, hd]
      have hf : firstQualifying k (r :: rest) = firstQualifying k rest := by
        simp [firstQualifying, List.find?_cons_of_neg _ hd]
      rw [hm, hf]

/-- The grouping map of a recipe list: an entry exists exactly for the
days with a qualifying recipe, carrying the first qualifying recipe's
label and extraction and all the day's meals in processing order. -/
theorem lookupEntry_dailyData (rs : List Recipe) (k : String) :
    lookupEntry k (dailyData rs) =
      match firstQualifying k rs with
      | none => none
      | some r0 =>
        some { day := dayLabelOf r0.created_at
               averageData := { micronutrients := (extractNutrients r0.steps).1
                                macronutrients := (extractNutrients r0.steps).2 }
               meals := mealsOf k rs } := by
  have h := lookupEntry_foldl k rs []
  simpa [dailyData, lookupEntry] using h

/-! ### Key distinctness and membership -/

/-- `pushMeal` does not change the key sequence. -/
theorem keys_pushMeal (k : String) (m : MealRecord) (l : List (String × NutrientData)) :
    (pushMeal k m l).map Prod.fst = l.map Prod.fst := by
  induction l with
  | nil => rfl
  | cons p rest ih =>
    obtain ⟨k0, e0⟩ := p
    by_cases h : k0 = k <;> simp [pushMeal, h, ih]

/-- A failed lookup means the key is absent. -/
theorem not_mem_keys_of_lookup_none (k : String) (l : List (String × NutrientData))
    (h : lookupEntry k l = none) : k ∉ l.map Prod.fst := by
  induction l with
  | nil => simp
  | cons p rest ih =>
    obtain ⟨k0, e0⟩ := p
    by_cases hk : k0 = k
    · simp [lookupEntry, hk] at h
    · simp only [lookupEntry, if_neg hk] at h
      have hk' : ¬ k = k0 := fun hc => hk hc.symm
      simp [ih h, hk']

/-- One loop iteration keeps the keys pairwise distinct. -/
theorem nodup_keys_processRecipe (acc : List (String × NutrientData)) (r : Recipe)
    (h : (acc.map Prod.fst).Nodup) : ((processRecipe acc r).map Prod.fst).Nodup := by
  by_cases hq : qualifies r = true
  · simp only [processRecipe, if_pos hq]
    rw [keys_pushMeal]
    by_cases hs : (lookupEntry (dayKeyOf r.created_at) acc).isSome = true
    · rw [if_pos hs]; exact h
    · rw [if_neg hs]
      have hnone : lookupEntry (dayKeyOf r.created_at) acc = none := by
        cases hl : lookupEntry (dayKeyOf r.created_at) acc with
        | some e => rw [hl] at hs; simp at hs
        | none => rfl
      have hnm := not_mem_keys_of_lookup_none _ _ hnone
      simp [List.nodup_append, h, hnm]
  · simp only [processRecipe, if_neg hq]
    exact h

/-- The grouping map has pairwise distinct keys. -/
theorem nodup_keys_dailyData (rs : List Recipe) :
    ((dailyData rs).map Prod.fst).Nodup := by
  have main : ∀ (l : List Recipe) (acc : List (String × NutrientData)),
      (acc.map Prod.fst).Nodup → ((l.foldl processRecipe acc).map Prod.fst).Nodup := by
    intro l
    induction l with
    | nil => intro acc h; exact h
    | cons r rest ih =>
      intro acc h
      rw [List.foldl_cons]
      exact ih _ (nodup_keys_processRecipe acc r h)
  exact main rs [] (by simp)

/-- A successful lookup comes from a member of the list. -/
theorem mem_of_lookupEntry (k : String) (e : NutrientData)
    (l : List (String × NutrientData)) (h : lookupEntry k l = some e) : (k, e) ∈ l := by
  induction l with
  | nil => simp [lookupEntry] at h
  | cons p rest ih =>
    obtain ⟨k0, e0⟩ := p
    by_cases hk : k0 = k
    · subst hk
      have h' : e0 = e := by simpa [lookupEntry] using h
      subst h'
      exact List.mem_cons_self _ _
    · simp only [lookupEntry, if_neg hk] at h
      exact List.mem_cons_of_mem _ (ih h)

/-- With distinct keys, membership determines the lookup. -/
theorem lookupEntry_of_mem (k : String) (e : NutrientData)
    (l : List (String × NutrientData)) (hn : (l.map Prod.fst).Nodup)
    (h : (k, e) ∈ l) : lookupEntry k l = some e := by
  induction l with
  | nil => simp at h
  | cons p rest ih =>
    obtain ⟨k0, e0⟩ := p
    simp only [List.map_cons, List.nodup_cons] at hn
    rcases List.mem_cons.mp h with heq | hmem
    · cases heq.symm
      simp [lookupEntry]
    · have hk : ¬ k0 = k := by
        intro hc
        subst hc
        exact hn.1 (List.mem_map_of_mem Prod.fst hmem)
      simp only [lookupEntry, if_neg hk]
      exact ih hn.2 hmem

/-! ### Output characterisation -/

/-- Insertion into the sorted list adds exactly one element. -/
theorem mem_insertDesc (x y : NutrientData) (l : List NutrientData) :
    x ∈ insertDesc y l ↔ x = y ∨ x ∈ l := by
  induction l with
  | nil => simp [insertDesc]
  | cons z zs ih =>
    by_cases h : labelKey z.day < labelKey y.day
    · simp only [insertDesc, if_pos h]
      simp [List.mem_cons]
    · simp only [insertDesc, if_neg h]
      simp only [List.mem_cons, ih]
      tauto

/-- The sort is a reordering: it has exactly the members of its input. -/
theorem mem_sortHistory (l : List NutrientData) (x : NutrientData) :
    x ∈ sortHistory l ↔ x ∈ l := by
  have main : ∀ (l : List NutrientData) (acc : List NutrientData),
      x ∈ l.foldl (fun a b => insertDesc b a) acc ↔ x ∈ acc ∨ x ∈ l := by
    intro l
    induction l with
    | nil => intro acc; simp
    | cons z zs ih =>
      intro acc
      rw [List.foldl_cons, ih, mem_insertDesc]
      simp [List.mem_cons]
      tauto
  rw [sortHistory, main]
  simp

/-- The head of a filtered list is the first element passing the test. -/
theorem head?_filter_eq_find? (p : α → Bool) (l : List α) :
    (l.filter p).head? = l.find? p := by
  induction l with
  | nil => rfl
  | cons a rest ih =>
    by_cases h : p a = true
    · simp [List.filter_cons, h, List.find?_cons_of_pos _ h]
    · have h' : ¬ p a = true := h
      simp [List.filter_cons, h, List.find?_cons_of_neg _ h', ih]

/-- The head of a day's meal list is the meal of the first qualifying
recipe of the day. -/
theorem head?_mealsOf (k : String) (rs : List Recipe) :
    (mealsOf k rs).head? = (firstQualifying k rs).map mkMeal := by
  rw [mealsOf, List.head?_map, head?_filter_eq_find?, firstQualifying]

/-- Every output entry is the finalisation of a day of the grouping map:
its day label and `averageData` come from the first qualifying recipe of
its day, and its meals are all that day's meals in processing order. -/
theorem mem_history_characterisation (rs : List Recipe) (nd : NutrientData)
    (h : nd ∈ nutrientHistoryData rs) :
    ∃ k r0, firstQualifying k rs = some r0 ∧
      nd.day = dayLabelOf r0.created_at ∧
      nd.meals = mealsOf k rs ∧
      nd.meals.head? = some (mkMeal r0) ∧
      nd.averageData.micronutrients = (extractNutrients r0.steps).1 ∧
      nd.averageData.macronutrients = (extractNutrients r0.steps).2 := by
  rw [nutrientHistoryData, mem_sortHistory, buildHistory, List.mem_filterMap] at h
  obtain ⟨⟨k, e⟩, hmem, hfin⟩ := h
  cases hme : e.meals with
  | nil => rw [finalizeEntry, hme] at hfin; cases hfin
  | cons m ms =>
    rw [finalizeEntry, hme] at hfin
    have hnd : nd =
        { day := e.day
          averageData := { micronutrients := m.micronutrients
                           macronutrients := m.macronutrients }
          meals := m :: ms } := by
      cases hfin
      rfl
    have hlk : lookupEntry k (dailyData rs) = some e :=
      lookupEntry_of_mem k e _ (nodup_keys_dailyData rs) hmem
    rw [lookupEntry_dailyData] at hlk
    cases hfq : firstQualifying k rs with
    | none => rw [hfq] at hlk; cases hlk
    | some r0 =>
      rw [hfq] at hlk
      have he : e =
          { day := dayLabelOf r0.created_at
            averageData := { micronutrients := (extractNutrients r0.steps).1
                             macronutrients := (extractNutrients r0.steps).2 }
            meals := mealsOf k rs } := by
        cases hlk
        rfl
      have hmeals : mealsOf k rs = m :: ms := by
        rw [← hme, he]
      have hhead : m = mkMeal r0 := by
        have h1 : (mealsOf k rs).head? = some (mkMeal r0) := by
          rw [head?_mealsOf, hfq]
          rfl
        rw [hmeals] at h1
        simpa using h1
      refine ⟨k, r0, hfq, ?_, ?_, ?_, ?_, ?_⟩
      · rw [hnd, he]
      · rw [hnd, hmeals]
      · rw [hnd, hhead]
        rfl
      · rw [hnd, hhead]
        rfl
      · rw [hnd, hhead]
        rfl

/-- Every day with a qualifying recipe contributes an output entry
carrying exactly that day's meals. -/
theorem history_complete (rs : List Recipe) (k : String) (r0 : Recipe)
    (hfq : firstQualifying k rs = some r0) :
    ∃ nd, nd ∈ nutrientHistoryData rs ∧ nd.meals = mealsOf k rs := by
  have hlk := lookupEntry_dailyData rs k
  rw [hfq] at hlk
  have hmem := mem_of_lookupEntry _ _ _ hlk
  have hmeals : (mealsOf k rs).head? = some (mkMeal r0) := by
    rw [head?_mealsOf, hfq]
    rfl
  cases hms : mealsOf k rs with
  | nil => rw [hms] at hmeals; cases hmeals
  | cons m ms =>
    refine ⟨{ day := dayLabelOf r0.created_at
              averageData := { micronutrients := m.micronutrients
                               macronutrients := m.macronutrients }
              meals := m :: ms }, ?_, ?_⟩
    · rw [nutrientHistoryData, mem_sortHistory, buildHistory, List.mem_filterMap]
      refine ⟨(k, { day := dayLabelOf r0.created_at
                    averageData := { micronutrients := (extractNutrients r0.steps).1
                                     macronutrients := (extractNutrients r0.steps).2 }
                    meals := mealsOf k rs }), hmem, ?_⟩
      rw [finalizeEntry]
      simp only [hms]
    · simp [hms]

/-- Passing both early returns is the same as having a positive
extracted value, because an empty step list extracts only zeroes. -/
theorem qualifies_eq (r : Recipe) :
    qualifies r = hasNutrientData (extractNutrients r.steps) := by
  simp only [qualifies]
  cases hs : r.steps with
  | nil => rfl
  | cons a l => rfl

/-- Two recipes with equal meal records have equal `hasNutrientData`
outcomes: the check reads only fields stored in the record. -/
theorem hasND_congr (r r' : Recipe) (hmk : mkMeal r' = mkMeal r) :
    hasNutrientData (extractNutrients r'.steps) = hasNutrientData (extractNutrients r.steps) := by
  have h1 := congrArg MealRecord.micronutrients hmk
  have h2 := congrArg MealRecord.macronutrients hmk
  simp only [mkMeal] at h1 h2
  calc hasNutrientData (extractNutrients r'.steps)
      = hasNutrientData ((extractNutrients r'.steps).1, (extractNutrients r'.steps).2) := rfl
    _ = hasNutrientData ((extractNutrients r.steps).1, (extractNutrients r.steps).2) := by
        rw [h1, h2]
    _ = hasNutrientData (extractNutrients r.steps) := rfl

/-- Membership in a concatenation of images. -/
theorem mem_concatMap (f : α → List β) (l : List α) (b : β) :
    b ∈ concatMap f l ↔ ∃ a, a ∈ l ∧ b ∈ f a := by
  induction l with
  | nil => simp [concatMap]
  | cons a rest ih =>
    simp only [concatMap, List.mem_append, ih, List.mem_cons]
    constructor
    · rintro (hb | ⟨a', ha', hb⟩)
      · exact ⟨a, Or.inl rfl, hb⟩
      · exact ⟨a', Or.inr ha', hb⟩
    · rintro ⟨a', ha' | ha', hb⟩
      · subst ha'; exact Or.inl hb
      · exact Or.inr ⟨a', ha', hb⟩

/-- Every field of an extraction result is nonnegative. -/
theorem nonneg_fieldsOfSets (steps : List String) (f : NutrientField)
    (h : f ∈ fieldsOfSets (extractNutrients steps)) :
    0 ≤ f.value ∧ 0 ≤ f.percentage := by
  rw [fieldsOfSets, List.mem_map] at h
  obtain ⟨k, _, hk⟩ := h
  rw [← hk]
  exact nonneg_getField_extract k steps

/-- Concrete values used by the witnesses below. -/
def sampleRecipe : Recipe :=
  { id := "a", created_at := ⟨2025, 1, 1, 9, 0⟩, steps := [("Protein: 25g (40%)")] }

/-- Macronutrients extracted from `sampleRecipe`. -/
def sampleMacros : Macronutrients :=
  { protein := ⟨25, "g", 40⟩, carbs := ⟨0, "g", 0⟩, fat := ⟨0, "g", 0⟩, fiber := ⟨0, "g", 0⟩ }

/-- The meal record `sampleRecipe` produces. -/
def sampleMeal : MealRecord :=
  { id := "a", timestamp := "9:00 AM", micronutrients := zeroMicros, macronutrients := sampleMacros }

/-- The day aggregate the pipeline emits for `[sampleRecipe]`. -/
def sampleDay : NutrientData :=
  { day := "Jan 1"
    averageData := { micronutrients := zeroMicros, macronutrients := sampleMacros }
    meals := [sampleMeal] }

/-! ### The claims -/

/-- C1: the output is NOT sorted by calendar date descending at the
claimed year-boundary input.  The comparator re-parses the `"MMM d"`
labels with the hard-coded year 2025, so the day of 2024-12-31 is
treated as Dec 31 2025 and sorted first; for recipes dated 2025-01-03,
2025-01-01 and 2024-12-31 the output day order is
Dec 31, Jan 3, Jan 1 instead of the claimed Jan 3, Jan 1, Dec 31.
This theorem evaluates the code at the failing input. -/
theorem c1_sort_year_boundary :
    (nutrientHistoryData
      [{ id := "r1", created_at := ⟨2025, 1, 3, 9, 0⟩, steps := [("Protein: 10g (20%)")] },
       { id := "r2", created_at := ⟨2025, 1, 1, 9, 0⟩, steps := [("Protein: 11g (22%)")] },
       { id := "r3", created_at := ⟨2024, 12, 31, 9, 0⟩, steps := [("Protein: 12g (24%)")] }]).map
        NutrientData.day = [("Dec 31"), ("Jan 3"), ("Jan 1")] := by decide

/-- C2: every output day's `averageData` equals the extracted values of
the first-processed qualifying recipe of that day (the head of its
meals), and the day's meals are exactly the qualifying recipes of that
day in processing order. -/
theorem c2_averageData_is_first_meal (rs : List Recipe) (nd : NutrientData)
    (h : nd ∈ nutrientHistoryData rs) :
    ∃ k r0, firstQualifying k rs = some r0 ∧
      nd.meals = mealsOf k rs ∧
      nd.meals.head? = some (mkMeal r0) ∧
      nd.averageData.micronutrients = (mkMeal r0).micronutrients ∧
      nd.averageData.macronutrients = (mkMeal r0).macronutrients := by
  obtain ⟨k, r0, hfq, _, hm, hh, h1, h2⟩ := mem_history_characterisation rs nd h
  exact ⟨k, r0, hfq, hm, hh, h1, h2⟩

/-- C2 witness at a concrete one-recipe input. -/
theorem c2_witness :
    ∃ k r0, firstQualifying k [sampleRecipe] = some r0 ∧
      sampleDay.meals = mealsOf k [sampleRecipe] ∧
      sampleDay.meals.head? = some (mkMeal r0) ∧
      sampleDay.averageData.micronutrients = (mkMeal r0).micronutrients ∧
      sampleDay.averageData.macronutrients = (mkMeal r0).macronutrients :=
  c2_averageData_is_first_meal [sampleRecipe] sampleDay (by decide)

/-- C3: for each nutrient the extracted field is decided by the last
step whose text matches that nutrient's pattern (each step contributing
its leftmost match), with no accumulation; with no matching step the
zero default survives.  In particular two protein steps 10g/20g end at
20g (20%). -/
theorem c3_last_match_wins :
    (∀ (k : NutrientKey) (steps : List String),
      getField k (extractNutrients steps) =
        match steps.reverse.findSome?
            (fun s => findMatch (labelOf k).toList (unitTextOf k).toList s.toList) with
        | some (v, p) => { value := (v : Int), unit := unitTextOf k, percentage := (p : Int) }
        | none => { value := 0, unit := unitTextOf k, percentage := 0 }) ∧
    getField .protein (extractNutrients [("Protein: 10g (10%)"), ("Protein: 20g (20%)")]) =
      { value := 20, unit := "g", percentage := 20 } := by
  constructor
  · intro k steps
    calc getField k (extractNutrients steps)
        = steps.foldl (fun f s => setMatch (labelOf k) (unitTextOf k) f s.toList)
            (getField k (zeroMicros, zeroMacros)) := getField_foldl k steps _
      _ = _ := by rw [foldl_setMatch_eq, getField_zero]
  · decide

/-- C4: each of the ten patterns extracts value, canonical unit and
percentage exactly, case-insensitively in the label. -/
theorem c4_extraction_exact :
    getField .protein (extractNutrients [("Protein: 25g (40%)")]) =
      { value := 25, unit := "g", percentage := 40 } ∧
    getField .protein (extractNutrients [("protein: 25g (40%)")]) =
      { value := 25, unit := "g", percentage := 40 } ∧
    getField .vitamin_a (extractNutrients [("Vitamin A: 300mcg (33%)")]) =
      { value := 300, unit := "mcg", percentage := 33 } ∧
    getField .vitamin_a (extractNutrients [("vitamin a: 300mcg (33%)")]) =
      { value := 300, unit := "mcg", percentage := 33 } ∧
    getField .vitamin_c (extractNutrients [("Vitamin C: 60mg (67%)")]) =
      { value := 60, unit := "mg", percentage := 67 } ∧
    getField .vitamin_c (extractNutrients [("VITAMIN C: 60mg (67%)")]) =
      { value := 60, unit := "mg", percentage := 67 } ∧
    getField .calcium (extractNutrients [("Calcium: 200mg (20%)")]) =
      { value := 200, unit := "mg", percentage := 20 } ∧
    getField .calcium (extractNutrients [("calcium: 200mg (20%)")]) =
      { value := 200, unit := "mg", percentage := 20 } ∧
    getField .iron (extractNutrients [("Iron: 8mg (44%)")]) =
      { value := 8, unit := "mg", percentage := 44 } ∧
    getField .iron (extractNutrients [("iron: 8mg (44%)")]) =
      { value := 8, unit := "mg", percentage := 44 } ∧
    getField .potassium (extractNutrients [("Potassium: 400mg (12%)")]) =
      { value := 400, unit := "mg", percentage := 12 } ∧
    getField .potassium (extractNutrients [("potassium: 400mg (12%)")]) =
      { value := 400, unit := "mg", percentage := 12 } ∧
    getField .sodium (extractNutrients [("Sodium: 500mg (21%)")]) =
      { value := 500, unit := "mg", percentage := 21 } ∧
    getField .sodium (extractNutrients [("sodium: 500mg (21%)")]) =
      { value := 500, unit := "mg", percentage := 21 } ∧
    getField .carbs (extractNutrients [("Carbs: 45g (15%)")]) =
      { value := 45, unit := "g", percentage := 15 } ∧
    getField .carbs (extractNutrients [("carbs: 45g (15%)")]) =
      { value := 45, unit := "g", percentage := 15 } ∧
    getField .fat (extractNutrients [("Fat: 10g (13%)")]) =
      { value := 10, unit := "g", percentage := 13 } ∧
    getField .fat (extractNutrients [("fat: 10g (13%)")]) =
      { value := 10, unit := "g", percentage := 13 } ∧
    getField .fiber (extractNutrients [("Fiber: 5g (18%)")]) =
      { value := 5, unit := "g", percentage := 18 } ∧
    getField .fiber (extractNutrients [("fiber: 5g (18%)")]) =
      { value := 5, unit := "g", percentage := 18 } := by
  decide

/-- C5: a recipe contributes a meal record to the output if and only if
its extraction has a strictly positive value (recipes with no steps
extract only zeroes, hence are excluded); moreover a non-qualifying
recipe affects nothing: deleting it leaves the whole output unchanged. -/
theorem c5_positive_extraction_iff_meal :
    (∀ (rs : List Recipe) (r : Recipe), r ∈ rs →
      ((∃ nd, nd ∈ nutrientHistoryData rs ∧ mkMeal r ∈ nd.meals) ↔
        hasNutrientData (extractNutrients r.steps) = true)) ∧
    (∀ (rs1 rs2 : List Recipe) (r : Recipe), qualifies r = false →
      nutrientHistoryData (rs1 ++ r :: rs2) = nutrientHistoryData (rs1 ++ rs2)) := by
  constructor
  · intro rs r hr
    constructor
    · rintro ⟨nd, hnd, hm⟩
      obtain ⟨k, r0, hfq, _, hmeals, _, _, _⟩ := mem_history_characterisation rs nd hnd
      rw [hmeals, mealsOf, List.mem_map] at hm
      obtain ⟨r', hr', hmk⟩ := hm
      rw [List.mem_filter] at hr'
      have hq' : qualifies r' = true := by
        have hdp := hr'.2
        rw [dayPred, Bool.and_eq_true] at hdp
        exact hdp.1
      have hnd' : hasNutrientData (extractNutrients r'.steps) = true := by
        rw [← qualifies_eq]
        exact hq'
      rw [← hasND_congr r r' hmk]
      exact hnd'
    · intro hpos
      have hq : qualifies r = true := by
        rw [qualifies_eq]
        exact hpos
      have hdp : dayPred (dayKeyOf r.created_at) r = true := by
        simp [dayPred, hq]
      have hfs : (rs.find? (dayPred (dayKeyOf r.created_at))).isSome :=
        List.find?_isSome.mpr ⟨r, hr, hdp⟩
      obtain ⟨r0, hfq⟩ := Option.isSome_iff_exists.mp hfs
      obtain ⟨nd, hnd, hmeals⟩ := history_complete rs (dayKeyOf r.created_at) r0 hfq
      refine ⟨nd, hnd, ?_⟩
      rw [hmeals, mealsOf, List.mem_map]
      exact ⟨r, List.mem_filter.mpr ⟨hr, hdp⟩, rfl⟩
  · intro rs1 rs2 r hq
    have hskip : ∀ acc, processRecipe acc r = acc := by
      intro acc
      simp [processRecipe, hq]
    unfold nutrientHistoryData
    congr 1
    congr 1
    unfold dailyData
    rw [List.foldl_append, List.foldl_append, List.foldl_cons, hskip]

/-- C5 witness: a qualifying recipe contributes its meal, a step-less
recipe changes nothing. -/
theorem c5_witness :
    (∃ nd, nd ∈ nutrientHistoryData [sampleRecipe] ∧ mkMeal sampleRecipe ∈ nd.meals) ∧
    nutrientHistoryData ([sampleRecipe] ++
        { id := "e", created_at := ⟨2025, 1, 2, 8, 0⟩, steps := ([] : List String) } :: []) =
      nutrientHistoryData ([sampleRecipe] ++ []) :=
  ⟨(c5_positive_extraction_iff_meal.1 [sampleRecipe] sampleRecipe (by decide)).mpr (by decide),
   c5_positive_extraction_iff_meal.2 [sampleRecipe] []
     { id := "e", created_at := ⟨2025, 1, 2, 8, 0⟩, steps := ([] : List String) } (by decide)⟩

/-- C6: a step on which a nutrient's whole pattern fails to match leaves
that nutrient's field exactly as before (in particular at its zero
default), and extraction is a total function, so no error is raised. -/
theorem c6_partial_match_keeps_field (k : NutrientKey) (steps : List String) (s : String)
    (h : findMatch (labelOf k).toList (unitTextOf k).toList s.toList = none) :
    getField k (extractNutrients (steps ++ [s])) = getField k (extractNutrients steps) :=
  extract_append_no_match k steps s h

/-- C6 witness: a value without a percentage matches nothing and keeps
the zero default. -/
theorem c6_witness :
    findMatch (labelOf .protein).toList (unitTextOf .protein).toList ("Protein: 25g").toList
        = none ∧
    getField .protein (extractNutrients (([] : List String) ++ [("Protein: 25g")])) =
      getField .protein (extractNutrients ([] : List String)) :=
  ⟨by decide, c6_partial_match_keeps_field .protein [] ("Protein: 25g") (by decide)⟩

/-- C7: a failed fetch leaves the in-memory nutrient history unchanged,
clears the loading indicator and logs the error, producing no partial
result. -/
theorem c7_fetch_failure (st : ViewState) (msg : String) :
    (runFetchNutrientData st (FetchResult.failure msg)).1.nutrientHistory =
        st.nutrientHistory ∧
    (runFetchNutrientData st (FetchResult.failure msg)).1.loading = false ∧
    (runFetchNutrientData st (FetchResult.failure msg)).2 = true :=
  ⟨rfl, rfl, rfl⟩

/-- C8: every emitted day aggregate has a nonempty meals sequence. -/
theorem c8_meals_nonempty (rs : List Recipe) (nd : NutrientData)
    (h : nd ∈ nutrientHistoryData rs) : nd.meals ≠ [] := by
  obtain ⟨k, r0, _, _, _, hh, _, _⟩ := mem_history_characterisation rs nd h
  intro hc
  rw [hc] at hh
  cases hh

/-- C8 witness at a concrete one-recipe input. -/
theorem c8_witness : sampleDay.meals ≠ [] :=
  c8_meals_nonempty [sampleRecipe] sampleDay (by decide)

/-- C9 counterexample: the claimed bound `percentage ≤ 100` is false —
the pattern `(\d+)%` does not clamp, so a step `"Protein: 10g (250%)"`
puts percentage 250 into the output. -/
theorem c9_counterexample :
    ∃ f, f ∈ allFieldsHistory (nutrientHistoryData
        [{ id := "x", created_at := ⟨2025, 1, 1, 9, 0⟩, steps := [("Protein: 10g (250%)")] }]) ∧
      100 < f.percentage := by
  refine ⟨{ value := 10, unit := "g", percentage := 250 }, ?_, ?_⟩ <;> decide

/-- C9 (amended): every nutrient field anywhere in the output has a
nonnegative value and a nonnegative percentage (digit captures only);
there is no upper bound on the percentage. -/
theorem c9_amended_nonneg (rs : List Recipe) (f : NutrientField)
    (h : f ∈ allFieldsHistory (nutrientHistoryData rs)) :
    0 ≤ f.value ∧ 0 ≤ f.percentage := by
  rw [allFieldsHistory, mem_concatMap] at h
  obtain ⟨nd, hnd, hf⟩ := h
  obtain ⟨k, r0, hfq, _, hmeals, _, h1, h2⟩ := mem_history_characterisation rs nd hnd
  rw [allFieldsOf, List.mem_append] at hf
  rcases hf with havg | hml
  · rw [h1, h2] at havg
    exact nonneg_fieldsOfSets r0.steps f havg
  · rw [mem_concatMap] at hml
    obtain ⟨m, hm, hfm⟩ := hml
    rw [hmeals, mealsOf, List.mem_map] at hm
    obtain ⟨r', _, hmk⟩ := hm
    rw [← hmk] at hfm
    exact nonneg_fieldsOfSets r'.steps f hfm

/-- C9 witness at a concrete output field. -/
theorem c9_witness :
    (0 : Int) ≤ ({ value := 25, unit := "g", percentage := 40 } : NutrientField).value ∧
    (0 : Int) ≤ ({ value := 25, unit := "g", percentage := 40 } : NutrientField).percentage :=
  c9_amended_nonneg [sampleRecipe] { value := 25, unit := "g", percentage := 40 } (by decide)

/-- C10: every field of every output record carries the fixed canonical
unit of its nutrient, both in `averageData` and in every meal, for
defaults and matches alike. -/
theorem c10_canonical_units (rs : List Recipe) (nd : NutrientData)
    (h : nd ∈ nutrientHistoryData rs) (k : NutrientKey) :
    (getField k (nd.averageData.micronutrients, nd.averageData.macronutrients)).unit
        = unitTextOf k ∧
    ∀ m ∈ nd.meals,
      (getField k (m.micronutrients, m.macronutrients)).unit = unitTextOf k := by
  obtain ⟨kk, r0, hfq, _, hmeals, _, h1, h2⟩ := mem_history_characterisation rs nd h
  constructor
  · rw [h1, h2]
    exact unit_getField_extract k r0.steps
  · intro m hm
    rw [hmeals, mealsOf, List.mem_map] at hm
    obtain ⟨r', _, hmk⟩ := hm
    rw [← hmk]
    exact unit_getField_extract k r'.steps

/-- C10 witness at a concrete output record. -/
theorem c10_witness :
    (getField .protein
        (sampleDay.averageData.micronutrients, sampleDay.averageData.macronutrients)).unit
      = unitTextOf .protein ∧
    ∀ m ∈ sampleDay.meals,
      (getField .protein (m.micronutrients, m.macronutrients)).unit = unitTextOf .protein :=
  c10_canonical_units [sampleRecipe] sampleDay (by decide) .protein

end Pipeline
